import Mathlib

/-!
# Verification of the vibronic-dynamics resource-estimation notebook

Shallow embedding of `Resource_Estimation_Tutorial.ipynb` (repository
XanaduAI/XPrize).  The notebook composes circuit templates, overrides the
QFT resource decomposition with a closed-form cost, aggregates per-fragment
resource estimates into a Trotter-step cost, and computes the required
number of Trotter steps from an error tolerance.

The external resource-estimation library's `Resources` record is modelled
from the spec's data model (an aggregate of a qubit count and per-gate-type
counts, a commutative monoid under series addition); every formula and
control flow of the notebook itself is translated directly from the source.
-/

/-- The notebook's custom gate set `my_gs = {'X','Z','Y','S','Hadamard','CNOT','T','Toffoli'}`. -/
inductive GateType where
  | X | Z | Y | S | Hadamard | CNOT | T | Toffoli
  deriving DecidableEq, Fintype, Repr

/-- Modelled from the spec: the external library's resource estimate, "an
aggregate record of {qubit count, per-gate-type counts}" (spec §3).  The
notebook reads `qubit_manager.total_qubits` and `clean_gate_counts`. -/
@[ext]
structure Resources where
  qubits : ℕ
  gates : GateType → ℕ

instance : DecidableEq Resources := fun a b =>
  decidable_of_iff (a.qubits = b.qubits ∧ a.gates = b.gates)
    (by cases a; cases b; simp)

/-- Modelled from the spec: series addition of resource estimates
("summing costs of sequential operations", spec §3).  Gate counts add;
the qubit registers of sequential operations are reused, so the qubit
count of the sum is the maximum of the two qubit counts (the notebook's
recorded totals keep a constant qubit count as estimates are summed). -/
instance : Add Resources :=
  ⟨fun a b => ⟨max a.qubits b.qubits, fun g => a.gates g + b.gates g⟩⟩

/-- Modelled from the spec: the identity estimate (no qubits, no gates). -/
instance : Zero Resources := ⟨⟨0, fun _ => 0⟩⟩

/-- Modelled from the spec: scalar multiplication `n * res` / `res * n`
("summing costs of repeated operations", spec §3): gate counts scale,
the (reused) qubit count is unchanged. -/
def Resources.smul (n : ℕ) (a : Resources) : Resources :=
  ⟨a.qubits, fun g => n * a.gates g⟩

theorem Resources.add_def (a b : Resources) :
    a + b = ⟨max a.qubits b.qubits, fun g => a.gates g + b.gates g⟩ := rfl

theorem Resources.zero_def : (0 : Resources) = ⟨0, fun _ => 0⟩ := rfl

instance : AddCommMonoid Resources where
  add_assoc a b c := by
    ext
    · exact max_assoc _ _ _
    · simp [Resources.add_def, Nat.add_assoc]
  zero_add a := by
    ext
    · exact Nat.zero_max _
    · simp [Resources.add_def, Resources.zero_def]
  add_zero a := by
    ext
    · exact Nat.max_zero _
    · simp [Resources.add_def, Resources.zero_def]
  add_comm a b := by
    ext
    · exact max_comm _ _
    · simp [Resources.add_def, Nat.add_comm]
  nsmul := nsmulRec

/-- The Toffoli count of an estimate,
`res.clean_gate_counts.get("Toffoli", 0)`, the sort key of the
notebook's expensive-fragment selection. -/
def Resources.toffoli (a : Resources) : ℕ := a.gates GateType.Toffoli

/-- Repeated series addition of an estimate: `repAdd (n+1) a` is `a`
added `n+1` times. -/
def Resources.repAdd : ℕ → Resources → Resources
  | 0, _ => 0
  | n + 1, a => Resources.repAdd n a + a

/-- Items of the gate list returned by a resource decomposition:
`re.AllocWires`, `re.GateCount`, `re.FreeWires`.  Counts are integers,
as in the Python source. -/
inductive ResOp where
  | AllocWires : ℤ → ResOp
  | GateCount : GateType → ℤ → ResOp
  | FreeWires : ℤ → ResOp
  deriving DecidableEq, Repr

/-- Total number of wires allocated by a gate list. -/
def allocTotal (l : List ResOp) : ℤ :=
  (l.map fun op => match op with
    | ResOp.AllocWires n => n
    | _ => 0).sum

/-- Total number of wires freed by a gate list. -/
def freeTotal (l : List ResOp) : ℤ :=
  (l.map fun op => match op with
    | ResOp.FreeWires n => n
    | _ => 0).sum

/-- Total count of a given gate type reported by a gate list. -/
def gateTotal (g : GateType) (l : List ResOp) : ℤ :=
  (l.map fun op => match op with
    | ResOp.GateCount g' n => if g' = g then n else 0
    | _ => 0).sum

/-- The embedding of `math.ceil(math.log2 num_wires)` for
`num_wires ≥ 1`: the ceiling of the base-2 logarithm, `Nat.clog 2`. -/
def ceil_log2 (num_wires : ℕ) : ℕ := Nat.clog 2 num_wires

/-- The notebook's override of the QFT resource decomposition
(`AQFT_resource_decomp(num_wires, **kwargs)`): allocate
`num_wires + 3*ceil_log_n - 4` auxiliary wires, report
`2 * num_wires * (ceil_log_n - 1)` Toffoli gates, free the auxiliary
wires.  The keyword arguments are ignored by the body; they are kept as
an explicit (unread) parameter. -/
def AQFT_resource_decomp (num_wires : ℕ) (kwargs : List (String × ℤ)) : List ResOp :=
  let _ := kwargs
  let ceil_log_n : ℤ := ceil_log2 num_wires
  let aux_qubit_count : ℤ := num_wires + 3 * ceil_log_n - 4
  let toff_count : ℤ := 2 * num_wires * (ceil_log_n - 1)
  [ResOp.AllocWires aux_qubit_count,
   ResOp.GateCount GateType.Toffoli toff_count,
   ResOp.FreeWires aux_qubit_count]

/-- The notebook's Trotter step-count function
`num_steps(norm, req_error, total_time)`,
`math.ceil(total_time**1.5 * (norm / req_error)**0.5)`, with the
floating-point arithmetic idealised over the reals. -/
noncomputable def num_steps (norm req_error total_time : ℝ) : ℤ :=
  ⌈total_time ^ (1.5 : ℝ) * (norm / req_error) ^ (0.5 : ℝ)⌉

/-- Modelled from the spec: a Hamiltonian fragment is "characterized by
counts of its linear/quadratic/bilinear term types" (spec §3). -/
structure Fragment where
  num_Qr : ℕ
  num_Qr2 : ℕ
  num_QrQs : ℕ
  deriving DecidableEq, Repr

/-- Modelled from the spec: the `count_nonzero_Q_terms` utility (its code
is not in the notebook) "inspects a given fragment and returns the number
of linear (Q_r), quadratic (Q_r^2), and bilinear (Q_r Q_s) terms it
contains". -/
def count_nonzero_Q_terms (f : Fragment) : ℕ × ℕ × ℕ :=
  (f.num_Qr, f.num_Qr2, f.num_QrQs)

/-- The notebook's per-fragment cost,
`res_frag = num_Qr * res_Q + num_Qr2 * res_Qsquared + num_QrQs * res_QrQs`,
where the three counts come from `count_nonzero_Q_terms`. -/
def res_frag (res_Q res_Qsquared res_QrQs : Resources) (f : Fragment) : Resources :=
  let counts := count_nonzero_Q_terms f
  Resources.smul counts.1 res_Q + Resources.smul counts.2.1 res_Qsquared +
    Resources.smul counts.2.2 res_QrQs

/-- The per-fragment estimate list (`res_list_OG` / `res_list_mode`): the
kinetic-fragment estimate followed by `res_frag` of `fragments[i]` for
`i in range(len(fragments)-1)` (the final fragment is skipped; its cost
is the kinetic head). -/
def res_list_build (res_kinetic res_Q res_Qsquared res_QrQs : Resources)
    (fragments : List Fragment) : List Resources :=
  res_kinetic :: fragments.dropLast.map (res_frag res_Q res_Qsquared res_QrQs)

/-- The stable descending sort of the indexed estimate list by Toffoli
count: `sorted(res_list, key=lambda r: r.clean_gate_counts.get("Toffoli", 0),
reverse=True)`.  Entries are indexed by list position so that distinct
fragment-estimate objects stay distinct. -/
def sortByToffoliDesc (indexed : List (ℕ × Resources)) : List (ℕ × Resources) :=
  indexed.insertionSort fun a b => b.2.toffoli ≤ a.2.toffoli

/-- The notebook's single second-order Trotter-step cost (`step_OG_res` /
`step_mode_res`): take the two estimates with the largest Toffoli counts,
add them once, then add every other estimate of the list twice. -/
def step_res (res_list : List Resources) : Resources :=
  let indexed := res_list.enum
  let res_expensive_frags := (sortByToffoliDesc indexed).take 2
  let step := (res_expensive_frags.getD 0 (0, 0)).2 + (res_expensive_frags.getD 1 (0, 0)).2
  indexed.foldl
    (fun acc res =>
      if res ∈ res_expensive_frags then acc else acc + Resources.smul 2 res.2)
    step

/-- The spec's description of the second-order step cost, stated
independently of the loop: sort the fragment estimates by descending
Toffoli count; the two costliest contribute once, every other fragment
contributes twice. -/
def step_spec (res_list : List Resources) : Resources :=
  let sorted := (sortByToffoliDesc res_list.enum).map Prod.snd
  (sorted.take 2).sum + ((sorted.drop 2).map (Resources.smul 2)).sum

/-- The arguments the step-count cell passes to `num_steps`: the cell
computing `nsteps_OG` runs under the guard `norm_OG is not None`, and the
cell computing `nsteps_mode` also runs under the guard
`norm_OG is not None` while passing `norm_mode`.  The norm values come
from `get_norm_value`, modelled from the spec as an optional lookup
result (`None` for an absent norm entry). -/
def num_steps_norm_args (norm_OG norm_mode : Option ℚ) : List (Option ℚ) :=
  (if norm_OG.isSome then [norm_OG] else []) ++
  (if norm_OG.isSome then [norm_mode] else [])

/-- A NumPy-style rank-4 coupling array: a shape together with rational
entries (only the shape and zero-ness matter to the claims). -/
structure Arr4 where
  shape : ℕ × ℕ × ℕ × ℕ
  entry : ℕ → ℕ → ℕ → ℕ → ℚ

/-- The all-zero array of shape `(N, N, M, M)`, i.e. `np.zeros((N, N, M, M))`. -/
def np_zeros (N M : ℕ) : Arr4 :=
  ⟨(N, N, M, M), fun _ _ _ _ => 0⟩

/-- Whether the unpickled couplings container has an entry under key
`2` (quadratic couplings present): `QVC = bool(2 in couplings)`. -/
def QVC (couplings : ℕ → Option Arr4) : Bool := (couplings 2).isSome

/-- The notebook's assignment of `betas`:
`betas = couplings[2] if QVC else np.zeros((N, N, M, M))` (a `none`
result would correspond to a failing `couplings[2]` lookup). -/
def load_betas (N M : ℕ) (couplings : ℕ → Option Arr4) : Option Arr4 :=
  if QVC couplings then couplings 2 else some (np_zeros N M)

/-! ## Theorems -/

/-- Sanity bridge for the embedding of `math.ceil(math.log2 n)`:
`Nat.clog 2` agrees with the ceiling of the real base-2 logarithm. -/
theorem ceil_log2_eq_ceil_logb (n : ℕ) :
    (ceil_log2 n : ℤ) = ⌈Real.logb 2 (n : ℝ)⌉ := by
  have h := Real.ceil_logb_natCast (b := 2) (r := (n : ℝ)) (Nat.cast_nonneg n)
  rw [Int.clog_natCast] at h
  rw [ceil_log2, ← h]
  norm_num

/-- Claim C1, counterexample: at `norm = 2`, `req_error = 1`,
`total_time = 1` the function `num_steps` does not return
`t^1.5 · sqrt(norm/req_error)`: it returns `⌈√2⌉ = 2`, not `√2`. -/
theorem num_steps_ne_raw_formula :
    ((num_steps 2 1 1 : ℤ) : ℝ) ≠ (1 : ℝ) ^ (1.5 : ℝ) * Real.sqrt (2 / 1) := by
  have hsq : Real.sqrt 2 ^ 2 = 2 := Real.sq_sqrt (by norm_num)
  have hnn : 0 ≤ Real.sqrt 2 := Real.sqrt_nonneg 2
  have h1 : 1 < Real.sqrt 2 := by nlinarith
  have h2 : Real.sqrt 2 < 2 := by nlinarith
  have key : (2 : ℝ) ^ (0.5 : ℝ) = Real.sqrt 2 := by
    rw [Real.sqrt_eq_rpow]; norm_num
  have hns : num_steps 2 1 1 = 2 := by
    unfold num_steps
    rw [Real.one_rpow, show ((2 : ℝ) / 1) = 2 by norm_num, key, one_mul]
    rw [Int.ceil_eq_iff]
    constructor
    · push_cast; linarith
    · push_cast; linarith
  rw [hns, Real.one_rpow, show ((2 : ℝ) / 1) = 2 by norm_num, one_mul]
  push_cast
  exact h2.ne'

/-- Claim C1, amended: for positive norm, error tolerance and simulation
time, `num_steps(norm, req_error, total_time)` returns the *ceiling* of
`total_time^1.5 · sqrt(norm/req_error)`, evaluated as a single
expression. -/
theorem num_steps_eq_ceil (norm req_error total_time : ℝ)
    (hnorm : 0 < norm) (herr : 0 < req_error) (htime : 0 < total_time) :
    num_steps norm req_error total_time =
      ⌈total_time ^ (1.5 : ℝ) * Real.sqrt (norm / req_error)⌉ := by
  unfold num_steps
  rw [Real.sqrt_eq_rpow]
  norm_num

/-- Witness for `num_steps_eq_ceil` at `norm = 1`, `req_error = 1`,
`total_time = 1`. -/
theorem num_steps_eq_ceil_witness :
    num_steps 1 1 1 = ⌈(1 : ℝ) ^ (1.5 : ℝ) * Real.sqrt (1 / 1)⌉ :=
  num_steps_eq_ceil 1 1 1 (by norm_num) (by norm_num) (by norm_num)

/-- Claim C2: `num_steps` is deterministic (equal inputs give equal
outputs), monotonically increasing in the norm for fixed positive
tolerance and time, and decreasing in the tolerance for fixed
nonnegative norm and positive time. -/
theorem num_steps_det_mono :
    (∀ n₁ e₁ t₁ n₂ e₂ t₂ : ℝ, n₁ = n₂ → e₁ = e₂ → t₁ = t₂ →
        num_steps n₁ e₁ t₁ = num_steps n₂ e₂ t₂) ∧
    (∀ n₁ n₂ e t : ℝ, 0 ≤ n₁ → 0 < e → 0 < t → n₁ ≤ n₂ →
        num_steps n₁ e t ≤ num_steps n₂ e t) ∧
    (∀ n e₁ e₂ t : ℝ, 0 ≤ n → 0 < e₁ → 0 < t → e₁ ≤ e₂ →
        num_steps n e₂ t ≤ num_steps n e₁ t) := by
  refine ⟨fun _ _ _ _ _ _ h₁ h₂ h₃ => by rw [h₁, h₂, h₃], ?_, ?_⟩
  · intro n₁ n₂ e t hn he ht h
    apply Int.ceil_mono
    have hbase : n₁ / e ≤ n₂ / e := div_le_div_of_nonneg_right h he.le
    have hb0 : 0 ≤ n₁ / e := div_nonneg hn he.le
    exact mul_le_mul_of_nonneg_left
      (Real.rpow_le_rpow hb0 hbase (by norm_num)) (Real.rpow_nonneg ht.le _)
  · intro n e₁ e₂ t hn he ht h
    apply Int.ceil_mono
    have hbase : n / e₂ ≤ n / e₁ := div_le_div_of_nonneg_left hn he h
    have hb0 : 0 ≤ n / e₂ := div_nonneg hn (he.trans_le h).le
    exact mul_le_mul_of_nonneg_left
      (Real.rpow_le_rpow hb0 hbase (by norm_num)) (Real.rpow_nonneg ht.le _)

/-- Witness for `num_steps_det_mono` at concrete inputs. -/
theorem num_steps_det_mono_witness :
    num_steps 1 1 1 ≤ num_steps 4 1 1 ∧ num_steps 1 4 1 ≤ num_steps 1 1 1 :=
  ⟨num_steps_det_mono.2.1 1 4 1 1 (by norm_num) (by norm_num) (by norm_num) (by norm_num),
   num_steps_det_mono.2.2 1 1 4 1 (by norm_num) (by norm_num) (by norm_num) (by norm_num)⟩

/-- Claim C3: for `num_wires ≥ 2` the overridden QFT decomposition reports
a Toffoli count of `2·n·(⌈log₂ n⌉ − 1)` and an auxiliary-qubit count of
`n + 3·⌈log₂ n⌉ − 4`, and its output depends on nothing besides
`num_wires` (in particular not on the keyword arguments). -/
theorem AQFT_resource_counts (n : ℕ) (kwargs : List (String × ℤ)) (h : 2 ≤ n) :
    gateTotal GateType.Toffoli (AQFT_resource_decomp n kwargs) =
        2 * n * (⌈Real.logb 2 (n : ℝ)⌉ - 1) ∧
    allocTotal (AQFT_resource_decomp n kwargs) =
        n + 3 * ⌈Real.logb 2 (n : ℝ)⌉ - 4 ∧
    ∀ kwargs', AQFT_resource_decomp n kwargs = AQFT_resource_decomp n kwargs' := by
  rw [← ceil_log2_eq_ceil_logb]
  exact ⟨by simp [AQFT_resource_decomp, gateTotal],
    by simp [AQFT_resource_decomp, allocTotal], fun _ => rfl⟩

/-- Witness for `AQFT_resource_counts` at `num_wires = 4`. -/
theorem AQFT_resource_counts_witness :
    gateTotal GateType.Toffoli (AQFT_resource_decomp 4 []) =
        2 * 4 * (⌈Real.logb 2 (4 : ℝ)⌉ - 1) ∧
    allocTotal (AQFT_resource_decomp 4 []) = 4 + 3 * ⌈Real.logb 2 (4 : ℝ)⌉ - 4 ∧
    ∀ kwargs', AQFT_resource_decomp 4 [] = AQFT_resource_decomp 4 kwargs' :=
  AQFT_resource_counts 4 [] (by norm_num)

/-- Claim C9: for `num_wires ≥ 2` the gate list of the overridden QFT
decomposition allocates and frees exactly the same number of auxiliary
wires, `n + 3·⌈log₂ n⌉ − 4`, leaving the net allocated-ancilla count
unchanged. -/
theorem AQFT_alloc_eq_free (n : ℕ) (kwargs : List (String × ℤ)) (h : 2 ≤ n) :
    allocTotal (AQFT_resource_decomp n kwargs) =
        freeTotal (AQFT_resource_decomp n kwargs) ∧
    freeTotal (AQFT_resource_decomp n kwargs) = n + 3 * (ceil_log2 n : ℤ) - 4 := by
  exact ⟨by simp [AQFT_resource_decomp, allocTotal, freeTotal],
    by simp [AQFT_resource_decomp, freeTotal]⟩

/-- Witness for `AQFT_alloc_eq_free` at `num_wires = 2`. -/
theorem AQFT_alloc_eq_free_witness :
    allocTotal (AQFT_resource_decomp 2 []) = freeTotal (AQFT_resource_decomp 2 []) ∧
    freeTotal (AQFT_resource_decomp 2 []) = 2 + 3 * (ceil_log2 2 : ℤ) - 4 :=
  AQFT_alloc_eq_free 2 [] (by norm_num)

/-- Claim C6: the claim fails on the code — the cell computing
`nsteps_mode` is guarded by `norm_OG is not None` rather than
`norm_mode is not None`, so when the OG norm entry is present and the
mode norm entry is absent, `None` is passed to `num_steps`. -/
theorem mode_none_passed_to_num_steps :
    none ∈ num_steps_norm_args (some 1) none := by
  simp [num_steps_norm_args]

/-- Claim C10: when the couplings container has no entry under key `2`,
`betas` is assigned the all-zero array of shape `(N, N, M, M)` and the
load does not fail with a lookup error. -/
theorem load_betas_defaults_to_zeros (N M : ℕ) (couplings : ℕ → Option Arr4)
    (h : couplings 2 = none) :
    load_betas N M couplings = some (np_zeros N M) ∧
    (np_zeros N M).shape = (N, N, M, M) ∧
    (np_zeros N M).entry = (fun _ _ _ _ => 0) ∧
    (load_betas N M couplings).isSome := by
  have hq : QVC couplings = false := by simp [QVC, h]
  refine ⟨by simp [load_betas, hq], rfl, rfl, by simp [load_betas, hq]⟩

/-- Witness for `load_betas_defaults_to_zeros` with an empty couplings
container and `N = 2`, `M = 3`. -/
theorem load_betas_defaults_to_zeros_witness :
    load_betas 2 3 (fun _ => none) = some (np_zeros 2 3) ∧
    (np_zeros 2 3).shape = (2, 2, 3, 3) ∧
    (np_zeros 2 3).entry = (fun _ _ _ _ => 0) ∧
    (load_betas 2 3 (fun _ => none)).isSome :=
  load_betas_defaults_to_zeros 2 3 (fun _ => none) rfl

/-- Claim C5: every non-kinetic entry of the per-fragment estimate list is
the weighted sum `num_Qr · res_Q + num_Qr2 · res_Qsquared +
num_QrQs · res_QrQs` of the three per-term unit costs, with the weights
returned by `count_nonzero_Q_terms` on the corresponding fragment. -/
theorem res_list_entry_eq_weighted_sum
    (res_kinetic res_Q res_Qsquared res_QrQs : Resources)
    (fragments : List Fragment) (i : ℕ) (h : i < fragments.length - 1) :
    (res_list_build res_kinetic res_Q res_Qsquared res_QrQs fragments).getD (i + 1) 0 =
      Resources.smul (count_nonzero_Q_terms (fragments.getD i ⟨0, 0, 0⟩)).1 res_Q +
        Resources.smul (count_nonzero_Q_terms (fragments.getD i ⟨0, 0, 0⟩)).2.1 res_Qsquared +
        Resources.smul (count_nonzero_Q_terms (fragments.getD i ⟨0, 0, 0⟩)).2.2 res_QrQs := by
  have hlen : i < fragments.dropLast.length := by
    simpa [List.length_dropLast] using h
  have hmap : i < (fragments.dropLast.map (res_frag res_Q res_Qsquared res_QrQs)).length := by
    simpa using hlen
  have hlt : i < fragments.length := lt_of_lt_of_le hlen (by
    simp [List.length_dropLast])
  rw [res_list_build, List.getD_cons_succ, List.getD_eq_getElem _ _ hmap,
    List.getElem_map, List.getElem_dropLast, List.getD_eq_getElem _ _ hlt]
  rfl

/-- Witness for `res_list_entry_eq_weighted_sum` on a two-fragment list. -/
theorem res_list_entry_eq_weighted_sum_witness :
    (res_list_build ⟨9, fun _ => 9⟩ ⟨1, fun _ => 1⟩ ⟨2, fun _ => 2⟩ ⟨3, fun _ => 3⟩
        [⟨1, 2, 3⟩, ⟨0, 0, 0⟩]).getD 1 0 =
      Resources.smul (count_nonzero_Q_terms ([(⟨1, 2, 3⟩ : Fragment), ⟨0, 0, 0⟩].getD 0 ⟨0, 0, 0⟩)).1
          ⟨1, fun _ => 1⟩ +
        Resources.smul (count_nonzero_Q_terms ([(⟨1, 2, 3⟩ : Fragment), ⟨0, 0, 0⟩].getD 0 ⟨0, 0, 0⟩)).2.1
          ⟨2, fun _ => 2⟩ +
        Resources.smul (count_nonzero_Q_terms ([(⟨1, 2, 3⟩ : Fragment), ⟨0, 0, 0⟩].getD 0 ⟨0, 0, 0⟩)).2.2
          ⟨3, fun _ => 3⟩ :=
  res_list_entry_eq_weighted_sum _ _ _ _ _ 0 (by norm_num)

/-- Claim C7: resource-estimate addition is associative and commutative (a
commutative monoid), scalar multiplication by `n ≥ 1` agrees with adding
the estimate `n` times, and summing any permutation of a list of
estimates yields the same total (same qubit count and same per-gate-type
counts). -/
theorem resources_add_monoid_laws :
    (∀ a b c : Resources, a + b + c = a + (b + c)) ∧
    (∀ a b : Resources, a + b = b + a) ∧
    (∀ (n : ℕ) (a : Resources), 1 ≤ n → Resources.smul n a = Resources.repAdd n a) ∧
    (∀ l₁ l₂ : List Resources, l₁.Perm l₂ → l₁.sum = l₂.sum) := by
  refine ⟨fun a b c => add_assoc a b c, fun a b => add_comm a b, ?_,
    fun l₁ l₂ h => h.sum_eq⟩
  intro n a hn
  induction n with
  | zero => exact absurd hn (by norm_num)
  | succ m ih =>
    rcases Nat.eq_zero_or_pos m with h0 | hpos
    · subst h0
      ext g
      · simp [Resources.smul, Resources.repAdd, Resources.add_def, Resources.zero_def]
      · simp [Resources.smul, Resources.repAdd, Resources.add_def, Resources.zero_def]
    · rw [Resources.repAdd, ← ih hpos]
      ext g
      · simp [Resources.smul, Resources.add_def]
      · simp [Resources.smul, Resources.add_def]
        ring

/-- Witness for `resources_add_monoid_laws`: scalar multiplication by 3
as threefold addition, and a two-element permutation. -/
theorem resources_add_monoid_laws_witness :
    Resources.smul 3 ⟨5, fun _ => 2⟩ = Resources.repAdd 3 ⟨5, fun _ => 2⟩ ∧
    [(⟨1, fun _ => 1⟩ : Resources), ⟨2, fun _ => 2⟩].sum =
      [(⟨2, fun _ => 2⟩ : Resources), ⟨1, fun _ => 1⟩].sum :=
  ⟨resources_add_monoid_laws.2.2.1 3 ⟨5, fun _ => 2⟩ (by norm_num),
   resources_add_monoid_laws.2.2.2 _ _
     (List.Perm.swap (⟨2, fun _ => 2⟩ : Resources) (⟨1, fun _ => 1⟩ : Resources) [])⟩

/-- The skip-two loop (`for res in res_list: if res not in
res_expensive_frags: step += res * 2`) adds twice every entry of the
list that is not among the selected entries. -/
theorem foldl_skip_twice (expensive l : List (ℕ × Resources)) (init : Resources) :
    l.foldl (fun acc res =>
        if res ∈ expensive then acc else acc + Resources.smul 2 res.2) init =
      init + ((l.filter fun res => decide (res ∉ expensive)).map
          fun res => Resources.smul 2 res.2).sum := by
  induction l generalizing init with
  | nil => simp
  | cons x xs ih =>
    rw [List.foldl_cons]
    by_cases hx : x ∈ expensive
    · rw [if_pos hx, ih, List.filter_cons]
      simp [hx]
    · rw [if_neg hx, ih, List.filter_cons]
      simp [hx, add_assoc]

/-- Claim C4: for every estimate list with at least two entries, the
notebook's single second-order Trotter-step cost equals the weighted sum
in which the two entries with the largest Toffoli counts (the first two
of the stable descending sort) are applied once and every other entry is
applied twice. -/
theorem step_res_eq_step_spec (res_list : List Resources)
    (h : 2 ≤ res_list.length) :
    step_res res_list = step_spec res_list := by
  obtain ⟨e0, e1, rest, hs⟩ :
      ∃ a b t, sortByToffoliDesc res_list.enum = a :: b :: t := by
    have hlen : 2 ≤ (sortByToffoliDesc res_list.enum).length := by
      rw [sortByToffoliDesc, List.length_insertionSort, List.enum_length]
      exact h
    cases hc : sortByToffoliDesc res_list.enum with
    | nil => rw [hc] at hlen; simp at hlen
    | cons a tl =>
      cases hd : tl with
      | nil => rw [hc, hd] at hlen; simp at hlen
      | cons b t => subst hd; exact ⟨a, b, t, rfl⟩
  have hperm : (e0 :: e1 :: rest).Perm res_list.enum := by
    rw [← hs]; exact List.perm_insertionSort _ _
  have hnd : (e0 :: e1 :: rest).Nodup :=
    hperm.nodup_iff.mpr (List.Nodup.of_map Prod.fst (List.nodup_enum_map_fst res_list))
  have he0 : e0 ∉ e1 :: rest := (List.nodup_cons.mp hnd).1
  have hnd1 : (e1 :: rest).Nodup := (List.nodup_cons.mp hnd).2
  have he1 : e1 ∉ rest := (List.nodup_cons.mp hnd1).1
  have hfil : (res_list.enum.filter fun res => decide (res ∉ [e0, e1])).Perm rest := by
    have h1 := hperm.symm.filter (fun res => decide (res ∉ [e0, e1]))
    have h2 : (e0 :: e1 :: rest).filter (fun res => decide (res ∉ [e0, e1])) = rest := by
      rw [List.filter_cons, List.filter_cons]
      simp only [List.mem_cons, List.mem_singleton, not_or, decide_eq_true_eq]
      rw [if_neg (by simp), if_neg (by simp)]
      refine List.filter_eq_self.mpr fun x hx => ?_
      have hxe0 : x ≠ e0 := fun hEq => he0 (hEq ▸ List.mem_cons_of_mem e1 hx)
      have hxe1 : x ≠ e1 := fun hEq => he1 (hEq ▸ hx)
      simp [hxe0, hxe1]
    exact h2 ▸ h1
  have hsum : ((res_list.enum.filter fun res => decide (res ∉ [e0, e1])).map
      fun res => Resources.smul 2 res.2).sum =
      (rest.map fun res => Resources.smul 2 res.2).sum :=
    (hfil.map _).sum_eq
  simp only [step_res, step_spec, hs, List.take_succ_cons, List.take_zero,
    List.drop_succ_cons, List.drop_zero, List.getD_cons_zero, List.getD_cons_succ]
  rw [foldl_skip_twice, hsum]
  simp [List.map_map, Function.comp_def, add_assoc]

/-- Witness for `step_res_eq_step_spec` on a concrete three-estimate
list. -/
theorem step_res_eq_step_spec_witness :
    step_res [⟨1, fun _ => 1⟩, ⟨2, fun _ => 2⟩, ⟨3, fun _ => 3⟩] =
      step_spec [⟨1, fun _ => 1⟩, ⟨2, fun _ => 2⟩, ⟨3, fun _ => 3⟩] :=
  step_res_eq_step_spec _ (by simp)
